import Mathlib

/-!
# Verification of the niimbot-web protocol core

Shallow embedding of the framed wire protocol (Dialect A), the raster
encoder, the print-job packet sequence, the response router and the BLE
transport of the niimbot-web repository, together with proofs of the
specified properties.

Conventions: JS `Uint8Array` element storage is modelled by reduction
modulo 256 (`u8`); out-of-range indexed reads (JS `undefined`, which fails
every equality test against a byte) are modelled by the sentinel value 256;
byte buffers are `List Nat` whose elements are below 256.
-/

namespace Niimbot

/-- Truncation performed when a JS number is stored into a `Uint8Array`
element. -/
def u8 (n : Nat) : Nat := n % 256

/-- Indexed read from a byte buffer.  A read past the end returns the
sentinel 256, which (like JS `undefined`) is different from every actual
byte value. -/
def byteAt (view : List Nat) (i : Nat) : Nat := view.getD i 256

/-- The packet object of `niimbot-web.js`: an 8-bit opcode `type` plus a
byte payload `data`. -/
structure NiimbotPacket where
  type : Nat
  data : List Nat
deriving Repr, DecidableEq

/-- The `NiimbotPacket` constructor: `this.data = new Uint8Array(data)`
truncates every payload element to a byte. -/
def NiimbotPacket.make (t : Nat) (d : List Nat) : NiimbotPacket :=
  ⟨t, d.map u8⟩

/-- The XOR checksum loop shared by `toBytes` and `fromBytes`:
start from `type ^ length` and fold XOR over the payload bytes. -/
def xorChecksum (t len : Nat) (data : List Nat) : Nat :=
  data.foldl (fun c b => c ^^^ b) (t ^^^ len)

/-- `NiimbotPacket.toBytes`: the Dialect-A encoder.  Emits
`55 55 | type | len | payload | checksum | AA AA`; every store into the
output `Uint8Array` truncates to a byte.  There is no length validation:
`packet[3] = this.data.length` wraps modulo 256. -/
def NiimbotPacket.toBytes (p : NiimbotPacket) : List Nat :=
  [0x55, 0x55, u8 p.type, u8 p.data.length]
    ++ p.data
    ++ [u8 (xorChecksum p.type p.data.length p.data), 0xaa, 0xaa]

/-- `NiimbotPacket.fromBytes`: the Dialect-A decoder.  Checks the
`55 55` header, the `AA AA` footer at the end of the buffer, extracts
`type = view[2]`, `length = view[3]`, `data = view.slice(4, 4+length)`,
and verifies the XOR checksum against `view[view.length - 3]`.
A thrown `Error` is modelled as `Except.error` with the message. -/
def NiimbotPacket.fromBytes (view : List Nat) : Except String NiimbotPacket :=
  if byteAt view 0 ≠ 0x55 ∨ byteAt view 1 ≠ 0x55 then
    .error "Invalid packet header"
  else if byteAt view (view.length - 2) ≠ 0xaa ∨ byteAt view (view.length - 1) ≠ 0xaa then
    .error "Invalid packet footer"
  else
    let t := byteAt view 2
    let len := byteAt view 3
    let data := (view.drop 4).take len
    if xorChecksum t len data ≠ byteAt view (view.length - 3) then
      .error "Checksum mismatch"
    else
      .ok ⟨t, data⟩

lemma u8_eq_self {n : Nat} (h : n < 256) : u8 n = n := Nat.mod_eq_of_lt h

lemma foldl_xor_lt : ∀ (data : List Nat) (c : Nat), c < 256 → (∀ b ∈ data, b < 256) →
    data.foldl (fun c b => c ^^^ b) c < 256 := by
  intro data
  induction data with
  | nil => intro c hc _; simpa using hc
  | cons b bs ih =>
    intro c hc hdata
    have hb : b < 256 := hdata b (by simp)
    have : c ^^^ b < 256 := Nat.xor_lt_two_pow (n := 8) hc hb
    simpa using ih (c ^^^ b) this (fun x hx => hdata x (by simp [hx]))

lemma xorChecksum_lt {t len : Nat} {data : List Nat} (ht : t < 256)
    (hlen : len < 256) (hdata : ∀ b ∈ data, b < 256) :
    xorChecksum t len data < 256 :=
  foldl_xor_lt data (t ^^^ len) (Nat.xor_lt_two_pow (n := 8) ht hlen) hdata

/-- For in-range inputs the encoder output is the literal Dialect-A frame. -/
lemma toBytes_eq {t : Nat} {d : List Nat} (ht : t < 256)
    (hd : ∀ b ∈ d, b < 256) (hlen : d.length ≤ 255) :
    NiimbotPacket.toBytes ⟨t, d⟩ =
      [0x55, 0x55, t, d.length] ++ d ++ [xorChecksum t d.length d, 0xaa, 0xaa] := by
  have hn : d.length < 256 := lt_of_le_of_lt hlen (by norm_num)
  have hc : xorChecksum t d.length d < 256 := xorChecksum_lt ht hn hd
  simp [NiimbotPacket.toBytes, u8_eq_self ht, u8_eq_self hn, u8_eq_self hc]

lemma length_toBytes (p : NiimbotPacket) :
    p.toBytes.length = p.data.length + 7 := by
  simp [NiimbotPacket.toBytes]

section RoundTrip

variable {t : Nat} {d : List Nat}

private lemma frame_indexing (t n c : Nat) (d : List Nat) (hn : d.length = n) :
    let L := [0x55, 0x55, t, n] ++ d ++ [c, 0xaa, 0xaa]
    L.length = n + 7 ∧ byteAt L (n + 4) = c ∧ byteAt L (n + 5) = 0xaa ∧
      byteAt L (n + 6) = 0xaa := by
  intro L
  have h1 : L.length = n + 7 := by simp [L, hn]
  refine ⟨h1, ?_, ?_, ?_⟩ <;>
    · show ([0x55, 0x55, t, n] ++ (d ++ [c, 0xaa, 0xaa])).getD _ 256 = _
      rw [List.getD_append_right _ _ _ _ (by simp),
        List.getD_append_right _ _ _ _ (by simp [hn])]
      simp [hn]

/-- Claim C1: decoding a Dialect-A frame produced by the encoder returns
exactly the original type and payload, for every 8-bit type and every
payload of length at most 255. -/
theorem dialectA_decode_encode_id (t : Nat) (d : List Nat) (ht : t < 256)
    (hd : ∀ b ∈ d, b < 256) (hlen : d.length ≤ 255) :
    NiimbotPacket.fromBytes (NiimbotPacket.toBytes ⟨t, d⟩) = Except.ok ⟨t, d⟩ := by
  rw [toBytes_eq ht hd hlen]
  obtain ⟨elen, echk, ef1, ef2⟩ :=
    frame_indexing t d.length (xorChecksum t d.length d) d rfl
  have h2 : ([0x55, 0x55, t, d.length] ++ d ++
      [xorChecksum t d.length d, 0xaa, 0xaa]).length - 2 = d.length + 5 := by
    rw [elen]; omega
  have h1 : ([0x55, 0x55, t, d.length] ++ d ++
      [xorChecksum t d.length d, 0xaa, 0xaa]).length - 1 = d.length + 6 := by
    rw [elen]; omega
  have h3 : ([0x55, 0x55, t, d.length] ++ d ++
      [xorChecksum t d.length d, 0xaa, 0xaa]).length - 3 = d.length + 4 := by
    rw [elen]; omega
  unfold NiimbotPacket.fromBytes
  rw [h2, h1, h3, ef1, ef2, echk]
  simp [byteAt, List.take_left]

/-- Claim C1 witness: the round trip at the concrete packet
`(type = 0x13, payload = [0x00, 0x18, 0x01, 0x80])`. -/
theorem dialectA_decode_encode_id_witness :
    NiimbotPacket.fromBytes (NiimbotPacket.toBytes ⟨0x13, [0x00, 0x18, 0x01, 0x80]⟩) =
      Except.ok ⟨0x13, [0x00, 0x18, 0x01, 0x80]⟩ :=
  dialectA_decode_encode_id 0x13 [0x00, 0x18, 0x01, 0x80]
    (by decide) (by decide) (by decide)

end RoundTrip

/-- Claim C2 (amended): the Dialect-A encoder emits
`0x55 0x55, type, len, payload, checksum, 0xAA 0xAA` with the checksum the
XOR of type, length and every payload byte; the concrete frame for
`(type = 0x13, payload = [0x00, 0x18, 0x01, 0x80])` carries checksum 0x8E
(the spec's 0x9E is a miscalculation). -/
theorem toBytes_frame (t : Nat) (d : List Nat) (ht : t < 256)
    (hd : ∀ b ∈ d, b < 256) (hlen : d.length ≤ 255) :
    NiimbotPacket.toBytes ⟨t, d⟩ =
      [0x55, 0x55, t, d.length] ++ d ++
        [d.foldl (fun c b => c ^^^ b) (t ^^^ d.length), 0xaa, 0xaa] :=
  toBytes_eq ht hd hlen

/-- Claim C2 witness: the example frame, with its actual checksum byte 0x8E. -/
theorem toBytes_frame_witness :
    NiimbotPacket.toBytes ⟨0x13, [0x00, 0x18, 0x01, 0x80]⟩ =
      [0x55, 0x55, 0x13, 0x04, 0x00, 0x18, 0x01, 0x80, 0x8e, 0xaa, 0xaa] := by
  rw [toBytes_frame 0x13 [0x00, 0x18, 0x01, 0x80] (by decide) (by decide) (by decide)]
  decide

/-- Claim C2 counterexample: the encoder does not produce the byte 0x9E the
spec computes for the example packet (its checksum byte is 0x8E). -/
theorem toBytes_frame_counterexample :
    NiimbotPacket.toBytes ⟨0x13, [0x00, 0x18, 0x01, 0x80]⟩ ≠
      [0x55, 0x55, 0x13, 0x04, 0x00, 0x18, 0x01, 0x80, 0x9e, 0xaa, 0xaa] := by
  decide

set_option maxRecDepth 4096 in
/-- Claim C8 counterexample: a 256-byte payload is not rejected.  `toBytes`
produces a frame whose length byte wrapped to 0, and decoding that frame
even succeeds with an empty payload: the payload is silently corrupted
instead of raising `PayloadTooLong`. -/
theorem toBytes_overlong_counterexample :
    NiimbotPacket.toBytes ⟨0x01, List.replicate 256 0⟩ =
      [0x55, 0x55, 0x01, 0x00] ++ List.replicate 256 0 ++ [0x01, 0xaa, 0xaa] ∧
    NiimbotPacket.fromBytes (NiimbotPacket.toBytes ⟨0x01, List.replicate 256 0⟩) =
      Except.ok ⟨0x01, []⟩ :=
  ⟨rfl, rfl⟩

/-- Claim C8 (amended): the encoder never fails; for every payload it emits a
`payload.length + 7`-byte frame whose length byte is the payload length
reduced modulo 256, so payloads longer than 255 bytes yield a malformed
frame rather than a `PayloadTooLong` error. -/
theorem toBytes_total (t : Nat) (d : List Nat) :
    (NiimbotPacket.make t d).toBytes =
      [0x55, 0x55, u8 t, u8 d.length] ++ d.map u8 ++
        [u8 (xorChecksum t d.length (d.map u8)), 0xaa, 0xaa] ∧
    (NiimbotPacket.make t d).toBytes.length = d.length + 7 := by
  constructor
  · simp [NiimbotPacket.make, NiimbotPacket.toBytes]
  · simp [NiimbotPacket.make, length_toBytes]

/-! ## BLE transport fragmentation -/

/-- Chunking loop of `WebBLETransport.write`, written with a structural
fuel argument (one unit per loop iteration is enough since every iteration
consumes at least one byte); `bleWriteChunks` below instantiates the fuel
so that it never runs out. -/
def bleWriteChunksAux : Nat → List Nat → List (List Nat)
  | _, [] => []
  | 0, _ :: _ => []
  | fuel + 1, b :: rest =>
    (b :: rest).take 20 :: bleWriteChunksAux fuel ((b :: rest).drop 20)

/-- `WebBLETransport.write` (`lib/transport-ble.js`): the buffer is cut into
successive `slice(i, i + 20)` chunks, each passed to one
`characteristic.writeValue` call.  The result lists the chunks in write
order. -/
def bleWriteChunks (data : List Nat) : List (List Nat) :=
  bleWriteChunksAux data.length data

/-- `PrinterClientWeb._bleWrite` (`printerClient.js`): a single
`writeValue` of the whole buffer, with no fragmentation. -/
def pcwBleWrite (data : List Nat) : List (List Nat) := [data]

lemma bleWriteChunksAux_join : ∀ (fuel : Nat) (data : List Nat),
    data.length ≤ fuel → (bleWriteChunksAux fuel data).flatten = data := by
  intro fuel
  induction fuel with
  | zero =>
    intro data hdata
    have : data = [] := List.length_eq_zero.mp (Nat.le_zero.mp hdata)
    subst this
    simp [bleWriteChunksAux]
  | succ fuel ih =>
    intro data hdata
    match data with
    | [] => simp [bleWriteChunksAux]
    | b :: rest =>
      have hdrop : ((b :: rest).drop 20).length ≤ fuel := by
        simp only [List.length_drop, List.length_cons]
        simp only [List.length_cons] at hdata
        omega
      show ((b :: rest).take 20 :: bleWriteChunksAux fuel ((b :: rest).drop 20)).flatten
          = b :: rest
      rw [List.flatten_cons, ih _ hdrop, List.take_append_drop]

lemma bleWriteChunksAux_le : ∀ (fuel : Nat) (data : List Nat),
    ∀ c ∈ bleWriteChunksAux fuel data, c.length ≤ 20 := by
  intro fuel
  induction fuel with
  | zero =>
    intro data c hc
    match data with
    | [] => simp [bleWriteChunksAux] at hc
    | _ :: _ => simp [bleWriteChunksAux] at hc
  | succ fuel ih =>
    intro data c hc
    match data with
    | [] => simp [bleWriteChunksAux] at hc
    | b :: rest =>
      simp only [bleWriteChunksAux, List.mem_cons] at hc
      rcases hc with hc | hc
      · subst hc
        simp
      · exact ih _ c hc

lemma bleWriteChunksAux_full : ∀ (fuel : Nat) (data : List Nat),
    data.length ≤ fuel →
    ∀ c ∈ (bleWriteChunksAux fuel data).dropLast, c.length = 20 := by
  intro fuel
  induction fuel with
  | zero =>
    intro data hdata c hc
    have : data = [] := List.length_eq_zero.mp (Nat.le_zero.mp hdata)
    subst this
    simp [bleWriteChunksAux] at hc
  | succ fuel ih =>
    intro data hdata c hc
    match data with
    | [] => simp [bleWriteChunksAux] at hc
    | b :: rest =>
      simp only [bleWriteChunksAux] at hc
      by_cases h20 : (b :: rest).length ≤ 20
      · have hdrop : (b :: rest).drop 20 = [] := List.drop_eq_nil_of_le h20
        rw [hdrop] at hc
        match fuel with
        | 0 => simp [bleWriteChunksAux] at hc
        | _ + 1 => simp [bleWriteChunksAux] at hc
      · have hlen : 20 < (b :: rest).length := Nat.lt_of_not_le h20
        have hdroplen : ((b :: rest).drop 20).length ≤ fuel := by
          simp only [List.length_drop]
          simp only [List.length_cons] at hdata ⊢
          omega
        have h1 : (b :: rest).drop 20 ≠ [] := by
          intro h
          have := congrArg List.length h
          simp only [List.length_drop, List.length_nil] at this
          omega
        cases fuel with
        | zero =>
          exact absurd (List.length_eq_zero.mp (Nat.le_zero.mp hdroplen)) h1
        | succ f =>
          obtain ⟨x, xs, hxx⟩ : ∃ x xs, (b :: rest).drop 20 = x :: xs := by
            cases hd : (b :: rest).drop 20 with
            | nil => exact absurd hd h1
            | cons x xs => exact ⟨x, xs, rfl⟩
          have hne : bleWriteChunksAux (f + 1) ((b :: rest).drop 20) ≠ [] := by
            rw [hxx]
            simp [bleWriteChunksAux]
          rw [List.dropLast_cons_of_ne_nil hne, List.mem_cons] at hc
          rcases hc with hc | hc
          · subst hc
            rw [List.length_take]
            exact Nat.min_eq_left (Nat.le_of_lt hlen)
          · exact ih _ hdroplen c hc

/-- Claim C9 counterexample: `PrinterClientWeb._bleWrite` issues a single
78-byte `writeValue` for a 78-byte buffer, not four writes of sizes
20, 20, 20, 18. -/
theorem pcwBleWrite_counterexample :
    (pcwBleWrite (List.replicate 78 1)).map List.length = [78] ∧
    (pcwBleWrite (List.replicate 78 1)).map List.length ≠ [20, 20, 20, 18] :=
  ⟨rfl, by decide⟩

/-- Claim C9 (amended): `WebBLETransport.write` fragments every buffer into
consecutive chunks of at most 20 bytes (all but the last exactly 20) that
concatenate back to the buffer, and a 78-byte buffer yields writes of sizes
20, 20, 20, 18; but `PrinterClientWeb._bleWrite` writes the whole buffer in
a single unfragmented `writeValue`. -/
theorem bleWrite_fragmentation (data : List Nat) :
    (bleWriteChunks data).flatten = data ∧
    (∀ c ∈ bleWriteChunks data, c.length ≤ 20) ∧
    (∀ c ∈ (bleWriteChunks data).dropLast, c.length = 20) ∧
    (bleWriteChunks (List.replicate 78 1)).map List.length = [20, 20, 20, 18] ∧
    pcwBleWrite data = [data] :=
  ⟨bleWriteChunksAux_join data.length data le_rfl,
   bleWriteChunksAux_le data.length data,
   bleWriteChunksAux_full data.length data le_rfl,
   by decide,
   rfl⟩

/-! ## Response router -/

/-- One polling round of `PrinterClientWeb.transceive`
(`printerClient.js`): the packets returned by `receivePackets` are scanned
in order; the first packet whose type is the expected response type is
returned, otherwise the first packet of type 219 throws `Error packet`. -/
def scanRound (expected : Nat) : List NiimbotPacket → Option (Except String NiimbotPacket)
  | [] => none
  | p :: rest =>
    if p.type = expected then some (.ok p)
    else if p.type = 219 then some (.error "Error packet")
    else scanRound expected rest

/-- Loop body of `PrinterClientWeb.transceive`: one entry of `rounds` per
polling round (the packet list produced by `receivePackets` in that
round); when the rounds are exhausted the JS function returns `null`,
modelled as `Except.ok none`. -/
def transceiveWebGo (expected : Nat) : List (List NiimbotPacket) → Except String (Option NiimbotPacket)
  | [] => .ok none
  | ps :: rest =>
    match scanRound expected ps with
    | some (.ok p) => .ok (some p)
    | some (.error e) => .error e
    | none => transceiveWebGo expected rest

/-- `PrinterClientWeb.transceive`: at most six polling rounds. -/
def transceiveWeb (reqCode respOffset : Nat) (rounds : List (List NiimbotPacket)) :
    Except String (Option NiimbotPacket) :=
  transceiveWebGo (reqCode + respOffset) (rounds.take 6)

/-- `PrinterClient.transceive` from the `niimbot-web.js` variant: each of
six attempts reads one buffer (one entry of `reads`) and decodes it as a
single frame; a decoded packet is returned only when its type matches the
expected response type, decode errors are caught and ignored, and there is
no check for error packets of type 219. -/
def transceiveV3Go (expected : Nat) : List (List Nat) → Except String NiimbotPacket
  | [] => .error "No response received"
  | r :: rest =>
    match NiimbotPacket.fromBytes r with
    | .ok p => if p.type = expected then .ok p else transceiveV3Go expected rest
    | .error _ => transceiveV3Go expected rest

/-- `PrinterClient.transceive` (`niimbot-web.js` variant), six attempts. -/
def transceiveV3 (reqCode respOffset : Nat) (reads : List (List Nat)) :
    Except String NiimbotPacket :=
  transceiveV3Go (respOffset + reqCode) (reads.take 6)

lemma scanRound_of_error {expected : Nat} {pre post : List NiimbotPacket}
    {p : NiimbotPacket} (hpre : ∀ q ∈ pre, q.type ≠ expected)
    (hp : p.type = 219) (hpe : p.type ≠ expected) :
    scanRound expected (pre ++ p :: post) = some (.error "Error packet") := by
  induction pre with
  | nil =>
    simp only [List.nil_append, scanRound]
    rw [if_neg hpe, if_pos hp]
  | cons q pre ih =>
    have hq : q.type ≠ expected := hpre q (by simp)
    simp only [List.cons_append, scanRound]
    rw [if_neg hq]
    by_cases hq219 : q.type = 219
    · rw [if_pos hq219]
    · rw [if_neg hq219]
      exact ih (fun r hr => hpre r (by simp [hr]))

lemma scanRound_of_none {expected : Nat} {ps : List NiimbotPacket}
    (h : ∀ q ∈ ps, q.type ≠ expected ∧ q.type ≠ 219) :
    scanRound expected ps = none := by
  induction ps with
  | nil => rfl
  | cons q ps ih =>
    obtain ⟨h1, h2⟩ := h q (by simp)
    simp only [scanRound]
    rw [if_neg h1, if_neg h2]
    exact ih (fun r hr => h r (by simp [hr]))

lemma transceiveWebGo_error {expected : Nat} :
    ∀ (L : List (List NiimbotPacket)) (pre post : List NiimbotPacket)
      (p : NiimbotPacket), L.flatten = pre ++ p :: post →
      (∀ q ∈ pre, q.type ≠ expected) → p.type = 219 → p.type ≠ expected →
      transceiveWebGo expected L = .error "Error packet" := by
  intro L
  induction L with
  | nil =>
    intro pre post p hsplit
    have hlen := congrArg List.length hsplit
    simp at hlen
    omega
  | cons ps rest ih =>
    intro pre post p hsplit hpre hp hpe
    rw [List.flatten_cons] at hsplit
    rcases List.append_eq_append_iff.mp hsplit with ⟨a, ha1, ha2⟩ | ⟨c, hc1, hc2⟩
    · -- the whole round `ps` lies inside `pre`, before the error packet
      have hps : ∀ q ∈ ps, q.type ≠ expected := by
        intro q hq
        exact hpre q (ha1 ▸ List.mem_append_left _ hq)
      by_cases hin : ∃ q ∈ ps, q.type = 219
      · obtain ⟨q, hqmem, hq219⟩ := hin
        obtain ⟨s, u, hsu⟩ := List.append_of_mem hqmem
        have herr : scanRound expected ps = some (.error "Error packet") := by
          rw [hsu]
          exact scanRound_of_error
            (fun r hr => hps r (hsu ▸ List.mem_append_left _ hr))
            hq219 (hps q hqmem)
        simp [transceiveWebGo, herr]
      · have hnone : scanRound expected ps = none :=
          scanRound_of_none (fun q hq =>
            ⟨hps q hq, fun h219 => hin ⟨q, hq, h219⟩⟩)
        simp only [transceiveWebGo, hnone]
        exact ih a post p ha2 (fun q hq => hpre q (ha1 ▸ List.mem_append_right _ hq)) hp hpe
    · -- `pre` is a prefix of the round `ps`
      match c, hc2 with
      | [], hc2 =>
        -- `ps = pre` and the error packet opens the next rounds
        rw [List.append_nil] at hc1
        have hps : ∀ q ∈ ps, q.type ≠ expected := fun q hq => hpre q (hc1 ▸ hq)
        by_cases hin : ∃ q ∈ ps, q.type = 219
        · obtain ⟨q, hqmem, hq219⟩ := hin
          obtain ⟨s, u, hsu⟩ := List.append_of_mem hqmem
          have herr : scanRound expected ps = some (.error "Error packet") := by
            rw [hsu]
            exact scanRound_of_error
              (fun r hr => hps r (hsu ▸ List.mem_append_left _ hr))
              hq219 (hps q hqmem)
          simp [transceiveWebGo, herr]
        · have hnone : scanRound expected ps = none :=
            scanRound_of_none (fun q hq =>
              ⟨hps q hq, fun h219 => hin ⟨q, hq, h219⟩⟩)
          simp only [transceiveWebGo, hnone]
          exact ih [] post p (by simpa using hc2.symm) (by simp) hp hpe
      | q :: c, hc2 =>
        -- the error packet itself is inside the round `ps`
        obtain ⟨hq, hpost⟩ : q = p ∧ post = c ++ rest.flatten := by
          have := hc2
          simp only [List.cons_append, List.cons.injEq] at this
          exact ⟨this.1.symm, this.2⟩
        subst hq
        have herr : scanRound expected ps = some (.error "Error packet") := by
          rw [hc1]
          exact scanRound_of_error hpre hp hpe
        simp [transceiveWebGo, herr]

/-- Claim C6 (amended): in `PrinterClientWeb.transceive` a decoded frame of
type 0xDB scanned before any frame of the expected response type makes the
call fail immediately with the `Error packet` error, whatever the request
and however many polling rounds remain; the `niimbot-web.js` variant
`PrinterClient.transceive` performs no such check and skips 0xDB frames
(see the counterexample). -/
theorem transceiveWeb_error_packet (reqCode respOffset : Nat)
    (rounds : List (List NiimbotPacket)) (pre post : List NiimbotPacket)
    (p : NiimbotPacket) (hsplit : (rounds.take 6).flatten = pre ++ p :: post)
    (hpre : ∀ q ∈ pre, q.type ≠ reqCode + respOffset) (hp : p.type = 219)
    (hpe : p.type ≠ reqCode + respOffset) :
    transceiveWeb reqCode respOffset rounds = .error "Error packet" :=
  transceiveWebGo_error (rounds.take 6) pre post p hsplit hpre hp hpe

/-- Claim C6 witness: polling for the END_PRINT response (request 0xF3,
expected type 0xF4) fails at once when the first decoded frame of the
first round has type 0xDB. -/
theorem transceiveWeb_error_packet_witness :
    transceiveWeb 243 1 [[⟨219, [1]⟩, ⟨244, [1]⟩]] = .error "Error packet" :=
  transceiveWeb_error_packet 243 1 [[⟨219, [1]⟩, ⟨244, [1]⟩]]
    [] [⟨244, [1]⟩] ⟨219, [1]⟩ rfl (by simp) rfl (by decide)

/-- Claim C6 counterexample: the `niimbot-web.js` variant
`PrinterClient.transceive` receives a well-formed type-0xDB error frame
before the expected END_PRINT response and nevertheless returns the later
response instead of failing. -/
theorem transceiveV3_ignores_error_packet :
    transceiveV3 243 1
      [(NiimbotPacket.make 219 [1]).toBytes, (NiimbotPacket.make 244 [1]).toBytes] =
      .ok ⟨244, [1]⟩ := rfl

/-! ## Parse buffer draining -/

/-- Loop of `PrinterClientWeb.receivePackets` (`printerClient.js`), with a
structural fuel argument (one unit per iteration is enough, every
iteration removes at least 7 bytes from the buffer).  While more than 4
bytes are buffered, `len = buffer[3] + 7` bytes are sliced off the head
and decoded; a decode failure propagates (the JS exception), discarding
the packets already collected; otherwise the loop continues on the rest of
the buffer.  On normal exit it returns the decoded packets and the
remaining buffer. -/
def receivePacketsAux : Nat → List Nat → List NiimbotPacket →
    Except String (List NiimbotPacket × List Nat)
  | 0, buffer, acc => .ok (acc.reverse, buffer)
  | fuel + 1, buffer, acc =>
    if 4 < buffer.length then
      let len := byteAt buffer 3 + 7
      if buffer.length < len then .ok (acc.reverse, buffer)
      else
        match NiimbotPacket.fromBytes (buffer.take len) with
        | .error e => .error e
        | .ok p => receivePacketsAux fuel (buffer.drop len) (p :: acc)
    else .ok (acc.reverse, buffer)

/-- `PrinterClientWeb.receivePackets` on the current parse buffer. -/
def receivePackets (buffer : List Nat) : Except String (List NiimbotPacket × List Nat) :=
  receivePacketsAux buffer.length buffer []

lemma fromBytes_bad_header {view : List Nat} (h : byteAt view 0 ≠ 0x55) :
    NiimbotPacket.fromBytes view = .error "Invalid packet header" := by
  unfold NiimbotPacket.fromBytes
  rw [if_pos (Or.inl h)]

/-- Claim C7 (amended): the router performs no resynchronization.  When
the head of the parse buffer is not `0x55` (and the buffer holds at least
one apparent frame), `fromBytes` throws and the error propagates out of
`receivePackets`; the buffered garbage is not skipped byte-by-byte, so a
buffer of the form `garbage ++ valid_frame` never yields the valid
frame. -/
theorem receivePackets_no_resync (buf : List Nat) (h4 : 4 < buf.length)
    (hlen : byteAt buf 3 + 7 ≤ buf.length) (h0 : byteAt buf 0 ≠ 0x55) :
    receivePackets buf = .error "Invalid packet header" := by
  match buf, h4, hlen, h0 with
  | b :: rest, h4, hlen, h0 =>
    unfold receivePackets
    have hn : (b :: rest).length = rest.length + 1 := by simp
    rw [hn, receivePacketsAux]
    rw [if_pos (hn ▸ h4), if_neg (by omega)]
    have htake : byteAt ((b :: rest).take (byteAt (b :: rest) 3 + 7)) 0 ≠ 0x55 := h0
    rw [fromBytes_bad_header htake]

/-- Claim C7 witness: a parse buffer holding one garbage byte `0x42`
followed by a valid frame makes `receivePackets` fail with the
header error instead of resynchronizing. -/
theorem receivePackets_no_resync_witness :
    receivePackets (0x42 :: (NiimbotPacket.make 0x01 [0x01]).toBytes) =
      .error "Invalid packet header" :=
  receivePackets_no_resync (0x42 :: (NiimbotPacket.make 0x01 [0x01]).toBytes)
    (by decide) (by decide) (by decide)

/-- Claim C7 counterexample: for the buffer `0x00 ++ valid_frame` the
valid frame is never decoded and returned — the call fails with the
header error, with the garbage still at the head of the buffer. -/
theorem receivePackets_garbage_counterexample :
    receivePackets (0x00 :: (NiimbotPacket.make 0x01 [0x01]).toBytes) =
      .error "Invalid packet header" := rfl

/-! ## Raster encoder: bit-packing machinery -/

/-- `bitmap[i] |= m`: read-modify-write of one byte of the bitmap. -/
def orUpdate (pos m : Nat) (bm : List Nat) : List Nat :=
  bm.set pos (bm.getD pos 0 ||| m)

lemma length_orUpdate (pos m : Nat) (bm : List Nat) :
    (orUpdate pos m bm).length = bm.length := by
  simp [orUpdate]

lemma getD_orUpdate_testBit {p : Nat} (m : Nat) (bm : List Nat)
    (hp : p < bm.length) (i k : Nat) :
    ((orUpdate p m bm).getD i 0).testBit k
      = ((bm.getD i 0).testBit k || (decide (p = i) && m.testBit k)) := by
  by_cases h : p = i
  · subst h
    rw [orUpdate, List.getD_eq_getElem?_getD, List.getElem?_set_self hp]
    simp [List.getD_eq_getElem?_getD, Nat.testBit_or]
  · rw [orUpdate, List.getD_eq_getElem?_getD, List.getElem?_set_ne h,
      ← List.getD_eq_getElem?_getD]
    simp [h]

lemma foldl_maskUpdate_length {α : Type} (c : α → Bool) (pos mval : α → Nat) :
    ∀ (xs : List α) (bm : List Nat),
      (xs.foldl (fun bm a => if c a then orUpdate (pos a) (mval a) bm else bm) bm).length
        = bm.length := by
  intro xs
  induction xs with
  | nil => intro bm; rfl
  | cons a xs ih =>
    intro bm
    rw [List.foldl_cons, ih]
    by_cases hca : c a <;> simp [hca, length_orUpdate]

lemma foldl_maskUpdate_testBit {α : Type} (c : α → Bool) (pos mval : α → Nat) :
    ∀ (xs : List α) (bm : List Nat), (∀ a ∈ xs, pos a < bm.length) → ∀ i k,
      (((xs.foldl (fun bm a => if c a then orUpdate (pos a) (mval a) bm else bm) bm).getD i 0).testBit k)
        = ((bm.getD i 0).testBit k ||
            xs.any (fun a => (c a && decide (pos a = i)) && (mval a).testBit k)) := by
  intro xs
  induction xs with
  | nil => intro bm _ i k; simp
  | cons a xs ih =>
    intro bm hpos i k
    rw [List.foldl_cons, List.any_cons]
    have hlen : (if c a then orUpdate (pos a) (mval a) bm else bm).length = bm.length := by
      by_cases hca : c a <;> simp [hca, length_orUpdate]
    rw [ih _ (fun b hb => hlen ▸ hpos b (List.mem_cons_of_mem _ hb))]
    by_cases hca : c a
    · rw [if_pos hca,
        getD_orUpdate_testBit (mval a) bm (hpos a (List.mem_cons_self a xs)) i k]
      simp [hca, Bool.or_assoc]
    · simp [hca]

/-- The pixel coordinates `(y, x)` visited by the nested
`for y ... for x ...` loops, in visiting order. -/
def gridPairs (h w : Nat) : List (Nat × Nat) :=
  ((List.range h).map (fun y => (List.range w).map (fun x => (y, x)))).flatten

lemma foldl_flatten_eq {α β : Type} (f : β → α → β) :
    ∀ (L : List (List α)) (b : β),
      L.flatten.foldl f b = L.foldl (fun b l => l.foldl f b) b := by
  intro L
  induction L with
  | nil => intro b; rfl
  | cons l L ih => intro b; simp [List.foldl_append, ih]

lemma foldl_grid {β : Type} (g : β → Nat → Nat → β) (hh ww : Nat) (b : β) :
    (List.range hh).foldl (fun b y => (List.range ww).foldl (fun b x => g b y x) b) b
      = (gridPairs hh ww).foldl (fun b a => g b a.1 a.2) b := by
  rw [gridPairs, foldl_flatten_eq, List.foldl_map]
  congr 1
  funext b y
  rw [List.foldl_map]

lemma mem_gridPairs {h w : Nat} {a : Nat × Nat} :
    a ∈ gridPairs h w ↔ a.1 < h ∧ a.2 < w := by
  obtain ⟨y, x⟩ := a
  simp only [gridPairs, List.mem_flatten, List.mem_map, List.mem_range]
  constructor
  · rintro ⟨l, ⟨y', hy', rfl⟩, hmem⟩
    obtain ⟨x', hx', heq⟩ := List.mem_map.mp hmem
    obtain ⟨rfl, rfl⟩ := Prod.mk.injEq .. ▸ heq
    exact ⟨hy', List.mem_range.mp hx'⟩
  · rintro ⟨hy, hx⟩
    exact ⟨(List.range w).map (fun x => (y, x)), ⟨y, hy, rfl⟩,
      List.mem_map.mpr ⟨x, List.mem_range.mpr hx, rfl⟩⟩

/-! ## Raster encoder: the two binarizers -/

/-- RGBA channel read `imageData[i]`; the buffers in use always have
length `4 * width * height`, so reads stay in range and the default is
irrelevant. -/
def chan (data : List Nat) (i : Nat) : Nat := data.getD i 0

/-- `Math.ceil(width / 8)`, the number of bytes per packed row. -/
def bytesPerRow (width : Nat) : Nat := (width + 7) / 8

/-- The luminance `0.299 * r + 0.587 * g + 0.114 * b` of pixel `(x, y)`
computed by `convertToMonochrome` (`niimbot.js`) and `getMonoBits`
(`lib/printer.js`), with `idx = (y * width + x) * 4`.  The JS engines
evaluate this in binary floating point; the embedding reads the literals
exactly, as rationals. -/
def pixelGray (data : List Nat) (width x y : Nat) : ℚ :=
  0.299 * chan data ((y * width + x) * 4)
    + 0.587 * chan data ((y * width + x) * 4 + 1)
    + 0.114 * chan data ((y * width + x) * 4 + 2)

/-- `convertToMonochrome` (`niimbot.js`): row-major scan; a pixel is ink
when its grayscale is strictly below 128 (`const bit = grayscale < 128 ? 1
: 0; if (bit) ...`), and then `bitmap[y * bytesPerRow + (x >> 3)] |=
0x80 >> x % 8`. -/
def convertToMonochrome (imageData : List Nat) (width height : Nat) : List Nat :=
  (List.range height).foldl (fun bitmap y =>
    (List.range width).foldl (fun bitmap x =>
      if pixelGray imageData width x y < 128 then
        orUpdate (y * bytesPerRow width + (x >>> 3)) (0x80 >>> (x % 8)) bitmap
      else bitmap) bitmap)
    (List.replicate (bytesPerRow width * height) 0)

/-- `getMonoBits` (`lib/printer.js`): density-scaled threshold
`256 - density * 40`; the row-major scan performs the unconditional
read-modify-write `bits[y * bytesPerRow + (x >> 3)] |= bit << (7 - (x & 7))`
with `bit = gray < threshold ? 1 : 0`. -/
def getMonoBits (imageData : List Nat) (width height density : Nat) : List Nat :=
  (List.range height).foldl (fun bits y =>
    (List.range width).foldl (fun bits x =>
      orUpdate (y * bytesPerRow width + (x >>> 3))
        ((if pixelGray imageData width x y < 256 - (density : ℚ) * 40 then 1 else 0)
          <<< (7 - (x &&& 7))) bits) bits)
    (List.replicate (bytesPerRow width * height) 0)

/-- Ink decision of `convertToMonochrome` (fixed threshold 128). -/
def inkFixed (data : List Nat) (width x y : Nat) : Bool :=
  decide (pixelGray data width x y < 128)

/-- Ink decision of `getMonoBits` (threshold `256 - density * 40`). -/
def inkDensity (data : List Nat) (width density x y : Nat) : Bool :=
  decide (pixelGray data width x y < 256 - (density : ℚ) * 40)

lemma shiftRight_three (x : Nat) : x >>> 3 = x / 8 := by
  rw [Nat.shiftRight_eq_div_pow]

lemma and_seven (x : Nat) : x &&& 7 = x % 8 := by
  have h := Nat.and_pow_two_sub_one_eq_mod x 3
  norm_num at h
  exact h

lemma mask128 {s : Nat} (hs : s < 8) : 0x80 >>> s = 2 ^ (7 - s) := by
  rw [Nat.shiftRight_eq_div_pow]
  show 2 ^ 7 / 2 ^ s = 2 ^ (7 - s)
  rw [Nat.pow_div (by omega) (by norm_num)]

lemma convertToMonochrome_eq (data : List Nat) (w h : Nat) :
    convertToMonochrome data w h =
      (gridPairs h w).foldl
        (fun bm a =>
          if inkFixed data w a.2 a.1 then
            orUpdate (a.1 * bytesPerRow w + a.2 / 8) (2 ^ (7 - a.2 % 8)) bm
          else bm)
        (List.replicate (bytesPerRow w * h) 0) := by
  unfold convertToMonochrome
  rw [foldl_grid (fun bm y x =>
    if pixelGray data w x y < 128 then
      orUpdate (y * bytesPerRow w + (x >>> 3)) (0x80 >>> (x % 8)) bm
    else bm)]
  congr 1
  funext bm a
  rw [shiftRight_three, mask128 (Nat.mod_lt _ (by norm_num))]
  by_cases hink : pixelGray data w a.2 a.1 < 128 <;> simp [inkFixed, hink]

lemma getMonoBits_eq (data : List Nat) (w h density : Nat) :
    getMonoBits data w h density =
      (gridPairs h w).foldl
        (fun bm a =>
          if (true : Bool) then
            orUpdate (a.1 * bytesPerRow w + a.2 / 8)
              ((if inkDensity data w density a.2 a.1 then 1 else 0) <<< (7 - a.2 % 8)) bm
          else bm)
        (List.replicate (bytesPerRow w * h) 0) := by
  unfold getMonoBits
  rw [foldl_grid (fun bm y x =>
    orUpdate (y * bytesPerRow w + (x >>> 3))
      ((if pixelGray data w x y < 256 - (density : ℚ) * 40 then 1 else 0)
        <<< (7 - (x &&& 7))) bm)]
  congr 1
  funext bm a
  rw [shiftRight_three, and_seven]
  by_cases hink : pixelGray data w a.2 a.1 < 256 - (density : ℚ) * 40 <;>
    simp [inkDensity, hink]

end Niimbot

namespace Niimbot

lemma getD_replicate_zero : ∀ (n i : Nat), (List.replicate n (0 : Nat)).getD i 0 = 0
  | 0, _ => by simp
  | n + 1, 0 => by simp
  | n + 1, i + 1 => by
    simp only [List.replicate, List.getD_cons_succ]
    exact getD_replicate_zero n i

private lemma grid_pos_lt_ne {bpr y' y x' x : Nat} (hx' : x' / 8 < bpr) (hlt : y' < y) :
    y' * bpr + x' / 8 ≠ y * bpr + x / 8 := by
  have h2 : y' * bpr + bpr ≤ y * bpr := by
    have h3 := Nat.mul_le_mul_right bpr (Nat.succ_le_of_lt hlt)
    rwa [Nat.succ_mul] at h3
  omega

lemma grid_pos_inj {bpr y' y x' x : Nat} (hx' : x' / 8 < bpr) (hx : x / 8 < bpr)
    (h : y' * bpr + x' / 8 = y * bpr + x / 8) : y' = y ∧ x' / 8 = x / 8 := by
  have hy : y' = y := by
    rcases Nat.lt_trichotomy y' y with hlt | heq | hgt
    · exact absurd h (grid_pos_lt_ne hx' hlt)
    · exact heq
    · exact absurd h.symm (grid_pos_lt_ne hx hgt)
  subst hy
  exact ⟨rfl, by omega⟩

lemma lt_bytesPerRow_of_lt {x w : Nat} (h : x < w) : x / 8 < bytesPerRow w := by
  unfold bytesPerRow
  omega

/-- Evaluation of the scan over all pixels: exactly the pixel `(x, y)`
itself can contribute the bit `(7 - x % 8)` of byte
`y * bytesPerRow w + x / 8`, so that bit is set iff `x < w` and the pixel
is ink. -/
lemma any_grid_eval (ink : Nat → Nat → Bool) (w h x y : Nat)
    (hy : y < h) (hx : x < 8 * bytesPerRow w) :
    ((gridPairs h w).any (fun a =>
        (ink a.2 a.1 && decide (a.1 * bytesPerRow w + a.2 / 8 = y * bytesPerRow w + x / 8)) &&
          decide (7 - a.2 % 8 = 7 - x % 8)))
      = (decide (x < w) && ink x y) := by
  have hxdiv : x / 8 < bytesPerRow w := by omega
  by_cases hcase : x < w ∧ ink x y = true
  · obtain ⟨hxw, hink⟩ := hcase
    rw [List.any_eq_true.mpr ⟨(y, x), mem_gridPairs.mpr ⟨hy, hxw⟩, by simp [hink]⟩]
    simp [hxw, hink]
  · have hfalse : (gridPairs h w).any (fun a =>
        (ink a.2 a.1 && decide (a.1 * bytesPerRow w + a.2 / 8 = y * bytesPerRow w + x / 8)) &&
          decide (7 - a.2 % 8 = 7 - x % 8)) = false := by
      rw [List.any_eq_false]
      rintro ⟨y', x'⟩ hmem hpred
      obtain ⟨hy', hx'⟩ := mem_gridPairs.mp hmem
      simp only [Bool.and_eq_true, decide_eq_true_eq] at hpred
      obtain ⟨⟨hink', hposeq⟩, hbit⟩ := hpred
      obtain ⟨hyy, hdiv⟩ := grid_pos_inj (lt_bytesPerRow_of_lt hx') hxdiv hposeq
      have hmod : x' % 8 = x % 8 := by omega
      have hxx : x' = x := by omega
      subst hyy
      subst hxx
      exact hcase ⟨hx', hink'⟩
    rw [hfalse]
    by_cases hxw : x < w
    · have : ink x y = false := by
        rcases Bool.eq_false_or_eq_true (ink x y) with hb | hb
        · exact absurd ⟨hxw, hb⟩ hcase
        · exact hb
      simp [this]
    · simp [hxw]

lemma testBit_bit_shift (b : Bool) (m k : Nat) :
    (((if b then 1 else 0) : Nat) <<< m).testBit k = (b && decide (m = k)) := by
  cases b
  · simp [Nat.zero_shiftLeft]
  · simp [Nat.one_shiftLeft, Nat.testBit_two_pow]

lemma and_shuffle (p i b : Bool) : ((true && p) && (i && b)) = ((i && p) && b) := by
  cases p <;> cases i <;> cases b <;> rfl

/-- Claim C4: for both binarizers, pixel `(x, y)` is marked as ink (bit 1)
exactly when its grayscale `0.299 R + 0.587 G + 0.114 B` is strictly below
the threshold (128 for `convertToMonochrome`, `256 - density * 40` for
`getMonoBits`), the bit is stored as bit `7 - x % 8` of byte
`y * ceil(W/8) + x / 8`, and the unused trailing bits of each row's last
byte are 0 (the instances with `w ≤ x`); both outputs have
`ceil(W/8) * H` bytes. -/
theorem raster_threshold_bit_packing (data : List Nat) (w h density x y : Nat)
    (hy : y < h) (hx : x < 8 * bytesPerRow w) :
    (((convertToMonochrome data w h).getD (y * bytesPerRow w + x / 8) 0).testBit (7 - x % 8)
        = (decide (x < w) && decide (pixelGray data w x y < 128))) ∧
    (((getMonoBits data w h density).getD (y * bytesPerRow w + x / 8) 0).testBit (7 - x % 8)
        = (decide (x < w) && decide (pixelGray data w x y < 256 - (density : ℚ) * 40))) ∧
    (convertToMonochrome data w h).length = bytesPerRow w * h ∧
    (getMonoBits data w h density).length = bytesPerRow w * h := by
  have hpos : ∀ a ∈ gridPairs h w,
      a.1 * bytesPerRow w + a.2 / 8 < (List.replicate (bytesPerRow w * h) (0 : Nat)).length := by
    intro a ha
    obtain ⟨h1, h2⟩ := mem_gridPairs.mp ha
    simp only [List.length_replicate]
    have hdiv := lt_bytesPerRow_of_lt h2
    have hmul : (a.1 + 1) * bytesPerRow w ≤ h * bytesPerRow w :=
      Nat.mul_le_mul_right _ (Nat.succ_le_of_lt h1)
    rw [Nat.succ_mul] at hmul
    have hcomm : h * bytesPerRow w = bytesPerRow w * h := Nat.mul_comm _ _
    omega
  refine ⟨?_, ?_, ?_, ?_⟩
  · rw [convertToMonochrome_eq,
      foldl_maskUpdate_testBit (fun a => inkFixed data w a.2 a.1)
        (fun a => a.1 * bytesPerRow w + a.2 / 8) (fun a => 2 ^ (7 - a.2 % 8))
        (gridPairs h w) _ hpos (y * bytesPerRow w + x / 8) (7 - x % 8),
      getD_replicate_zero, Nat.zero_testBit, Bool.false_or]
    simp only [Nat.testBit_two_pow]
    rw [any_grid_eval (fun x y => inkFixed data w x y) w h x y hy hx]
    rfl
  · rw [getMonoBits_eq,
      foldl_maskUpdate_testBit (fun _ => (true : Bool))
        (fun a => a.1 * bytesPerRow w + a.2 / 8)
        (fun a => (if inkDensity data w density a.2 a.1 then 1 else 0) <<< (7 - a.2 % 8))
        (gridPairs h w) _ hpos (y * bytesPerRow w + x / 8) (7 - x % 8),
      getD_replicate_zero, Nat.zero_testBit, Bool.false_or]
    simp only [testBit_bit_shift, and_shuffle]
    rw [any_grid_eval (fun x y => inkDensity data w density x y) w h x y hy hx]
    rfl
  · rw [convertToMonochrome_eq, foldl_maskUpdate_length]
    simp
  · rw [getMonoBits_eq, foldl_maskUpdate_length]
    simp

/-- A concrete 9-pixel-wide all-black row used by the raster witnesses. -/
def sampleRGBA : List Nat := List.replicate 36 0

/-- Claim C4 witness: the packing property at pixel `(3, 0)` of a 9-pixel
all-black row (width not a multiple of 8), density 5. -/
theorem raster_threshold_bit_packing_witness :
    (((convertToMonochrome sampleRGBA 9 1).getD (0 * bytesPerRow 9 + 3 / 8) 0).testBit (7 - 3 % 8)
        = (decide (3 < 9) && decide (pixelGray sampleRGBA 9 3 0 < 128))) ∧
    (((getMonoBits sampleRGBA 9 1 5).getD (0 * bytesPerRow 9 + 3 / 8) 0).testBit (7 - 3 % 8)
        = (decide (3 < 9) && decide (pixelGray sampleRGBA 9 3 0 < 256 - (5 : Nat) * 40))) ∧
    (convertToMonochrome sampleRGBA 9 1).length = bytesPerRow 9 * 1 ∧
    (getMonoBits sampleRGBA 9 1 5).length = bytesPerRow 9 * 1 :=
  raster_threshold_bit_packing sampleRGBA 9 1 5 3 0 (by decide) (by decide)

/-! ## Image-row packets and the print-job sequence -/

/-- Pixel-to-bit conversion of one row in `PrinterClient.encodeImage`
(`niimbot-web.js`): `grayscale = (r + g + b) / 3`, ink (1) when
`grayscale < 128`.  The division is read exactly in ℚ; for integer
channel sums the comparison with 128 agrees with the JS double
evaluation. -/
def lineDataRow (data : List Nat) (width y : Nat) : List Nat :=
  (List.range width).map (fun x =>
    if ((chan data ((y * width + x) * 4) + chan data ((y * width + x) * 4 + 1) +
        chan data ((y * width + x) * 4 + 2) : ℚ)) / 3 < 128 then 1 else 0)

/-- Inner packing loop of `encodeImage`: one byte from up to eight bits,
MSB first (`if (lineData[i + bit]) byte |= 1 << (7 - bit)`). -/
def byteOfBits (bs : List Nat) : Nat :=
  (List.range bs.length).foldl
    (fun byte bit => if bs.getD bit 0 ≠ 0 then byte ||| (1 <<< (7 - bit)) else byte) 0

/-- Outer packing loop of `encodeImage` (`for (i = 0; i < len; i += 8)`),
with a structural fuel argument (one unit per iteration suffices since
every iteration consumes at least one bit). -/
def packRowAux : Nat → List Nat → List Nat
  | _, [] => []
  | 0, _ :: _ => []
  | fuel + 1, b :: rest =>
    byteOfBits ((b :: rest).take 8) :: packRowAux fuel ((b :: rest).drop 8)

/-- Row bits to row bytes. -/
def packRow (bits : List Nat) : List Nat := packRowAux bits.length bits

/-- The six-byte row header: `setUint16(0, y, false)` stores `ToUint16(y)`
big-endian, then three zero bytes and the flag byte 1. -/
def rowHeader (y : Nat) : List Nat := [y % 65536 / 256, y % 256, 0, 0, 0, 1]

/-- `PrinterClient.encodeImage` (`niimbot-web.js`): yields one
`NiimbotPacket(0x85, header ++ rowBytes)` per row `y = 0 .. height-1`. -/
def encodeImage (data : List Nat) (width height : Nat) : List NiimbotPacket :=
  (List.range height).map (fun y =>
    NiimbotPacket.make 0x85 (rowHeader y ++ packRow (lineDataRow data width y)))

lemma byteOfBits_lt (bs : List Nat) : byteOfBits bs < 256 := by
  unfold byteOfBits
  generalize List.range bs.length = idxs
  have h : ∀ (l : List Nat) (acc : Nat), acc < 256 →
      (l.foldl (fun byte bit => if bs.getD bit 0 ≠ 0 then byte ||| (1 <<< (7 - bit)) else byte)
        acc) < 256 := by
    intro l
    induction l with
    | nil => intro acc hacc; simpa using hacc
    | cons i l ih =>
      intro acc hacc
      rw [List.foldl_cons]
      by_cases hbit : bs.getD i 0 ≠ 0
      · rw [if_pos hbit]
        refine ih _ (Nat.or_lt_two_pow (n := 8) hacc ?_)
        rw [Nat.one_shiftLeft]
        calc 2 ^ (7 - i) ≤ 2 ^ 7 := Nat.pow_le_pow_right (by norm_num) (by omega)
          _ < 2 ^ 8 := by norm_num
      · rw [if_neg hbit]
        exact ih _ hacc
  exact h idxs 0 (by norm_num)

lemma packRowAux_length : ∀ (fuel : Nat) (bits : List Nat), bits.length ≤ fuel →
    (packRowAux fuel bits).length = (bits.length + 7) / 8 := by
  intro fuel
  induction fuel with
  | zero =>
    intro bits hbits
    have : bits = [] := List.length_eq_zero.mp (Nat.le_zero.mp hbits)
    subst this
    simp [packRowAux]
  | succ fuel ih =>
    intro bits hbits
    match bits with
    | [] => simp [packRowAux]
    | b :: rest =>
      have hdrop : ((b :: rest).drop 8).length ≤ fuel := by
        simp only [List.length_drop, List.length_cons]
        simp only [List.length_cons] at hbits
        omega
      rw [packRowAux, List.length_cons, ih _ hdrop]
      simp only [List.length_drop, List.length_cons]
      omega

lemma packRowAux_mem_lt : ∀ (fuel : Nat) (bits : List Nat),
    ∀ c ∈ packRowAux fuel bits, c < 256 := by
  intro fuel
  induction fuel with
  | zero =>
    intro bits c hc
    match bits with
    | [] => simp [packRowAux] at hc
    | _ :: _ => simp [packRowAux] at hc
  | succ fuel ih =>
    intro bits c hc
    match bits with
    | [] => simp [packRowAux] at hc
    | b :: rest =>
      rw [packRowAux, List.mem_cons] at hc
      rcases hc with hc | hc
      · exact hc ▸ byteOfBits_lt _
      · exact ih _ c hc

lemma map_u8_eq_self : ∀ {l : List Nat}, (∀ b ∈ l, b < 256) → l.map u8 = l := by
  intro l
  induction l with
  | nil => intro _; rfl
  | cons b bs ih =>
    intro h
    rw [List.map_cons, u8_eq_self (h b (by simp)), ih (fun x hx => h x (by simp [hx]))]

lemma rowPayload_bytes_lt {data : List Nat} {w y : Nat} :
    ∀ b ∈ rowHeader y ++ packRow (lineDataRow data w y), b < 256 := by
  intro b hb
  rcases List.mem_append.mp hb with hb | hb
  · simp only [rowHeader, List.mem_cons] at hb
    rcases hb with rfl | rfl | rfl | rfl | rfl | h
    · omega
    · omega
    · omega
    · omega
    · omega
    · simp at h
      omega
  · exact packRowAux_mem_lt _ _ b hb

lemma encodeImage_packet {data : List Nat} {w y : Nat} (hy : y < 65536) :
    NiimbotPacket.make 0x85 (rowHeader y ++ packRow (lineDataRow data w y)) =
      ⟨0x85, [y / 256, y % 256, 0, 0, 0, 1] ++ packRow (lineDataRow data w y)⟩ := by
  rw [NiimbotPacket.make, map_u8_eq_self rowPayload_bytes_lt]
  rw [rowHeader, Nat.mod_eq_of_lt hy]

/-- Claim C3: for every RGBA bitmap of height `H ≤ 65536` and width `W`,
`encodeImage` yields exactly `H` packets; the packet at position `y` is an
IMAGE_ROW (type 0x85) packet for row `y` (so the indices `0 .. H-1` appear
in strictly increasing order), its payload starts with the 6-byte header
(big-endian `y`, three zero bytes, one byte 1) and continues with exactly
`ceil(W/8)` row bytes. -/
theorem encodeImage_rows (data : List Nat) (w h : Nat) (hh : h ≤ 65536) :
    (encodeImage data w h).length = h ∧
    ∀ y, y < h →
      (encodeImage data w h).getD y ⟨0, []⟩ =
        ⟨0x85, [y / 256, y % 256, 0, 0, 0, 1] ++ packRow (lineDataRow data w y)⟩ ∧
      (packRow (lineDataRow data w y)).length = bytesPerRow w := by
  constructor
  · simp [encodeImage]
  · intro y hy
    constructor
    · rw [encodeImage, List.getD_eq_getElem?_getD, List.getElem?_map,
        List.getElem?_range hy, Option.map_some', Option.getD_some,
        encodeImage_packet (lt_of_lt_of_le hy hh)]
    · rw [packRow, packRowAux_length _ _ le_rfl]
      simp [lineDataRow, bytesPerRow]

/-- Claim C3 witness: a 16×2 all-black bitmap yields two IMAGE_ROW packets
with the documented headers and two row bytes each. -/
theorem encodeImage_rows_witness :
    (encodeImage (List.replicate 128 0) 16 2).length = 2 ∧
    ∀ y, y < 2 →
      (encodeImage (List.replicate 128 0) 16 2).getD y ⟨0, []⟩ =
        ⟨0x85, [y / 256, y % 256, 0, 0, 0, 1] ++
          packRow (lineDataRow (List.replicate 128 0) 16 y)⟩ ∧
      (packRow (lineDataRow (List.replicate 128 0) 16 y)).length = bytesPerRow 16 :=
  encodeImage_rows (List.replicate 128 0) 16 2 (by decide)

/-- Big-endian 16-bit encoding, `DataView.setUint16(_, n, false)`:
`ToUint16(n)` split into high and low byte. -/
def be16 (n : Nat) : List Nat := [n % 65536 / 256, n % 256]

/-- END_PRINT polling loop of `printImage`
(`while (!printEnded) printEnded = await this.endPrint()`): one END_PRINT
request per entry of `endAcks` — the first payload byte of each
response — stopping after the first nonzero ack. -/
def endPrintRequests : List Nat → List NiimbotPacket
  | [] => []
  | a :: rest =>
    NiimbotPacket.make 243 [1] :: (if a ≠ 0 then [] else endPrintRequests rest)

/-- Request-packet sequence emitted by `PrinterClient.printImage`
(`niimbot-web.js`) in the happy path in which every `transceive` promptly
receives a response of the expected type: `setLabelDensity(density)`,
`setLabelType(1)`, `startPrint()`, `startPagePrint()`,
`setDimension(height, width)` (payload `be16(height) ++ be16(width)`),
the `encodeImage` row packets, `endPagePrint()`, then END_PRINT
polling driven by the acks in `endAcks`. -/
def printImageRequests (data : List Nat) (width height density : Nat)
    (endAcks : List Nat) : List NiimbotPacket :=
  [NiimbotPacket.make 33 [density], NiimbotPacket.make 35 [1],
   NiimbotPacket.make 1 [1], NiimbotPacket.make 3 [1],
   NiimbotPacket.make 19 (be16 height ++ be16 width)]
  ++ encodeImage data width height
  ++ [NiimbotPacket.make 227 [1]]
  ++ endPrintRequests endAcks

lemma endPrintRequests_eq (zeros : List Nat) (a : Nat) (rest : List Nat)
    (hz : ∀ z ∈ zeros, z = 0) (ha : a ≠ 0) :
    endPrintRequests (zeros ++ a :: rest) =
      List.replicate (zeros.length + 1) (NiimbotPacket.make 243 [1]) := by
  induction zeros with
  | nil => simp [endPrintRequests, ha]
  | cons z zs ih =>
    have hz0 : z = 0 := hz z (by simp)
    rw [List.cons_append, endPrintRequests, if_neg (by simp [hz0]),
      ih (fun x hx => hz x (by simp [hx]))]
    rfl

/-- Claim C5: for a raster of width `w` and height `h`, the happy-path
print job emits exactly SET_LABEL_DENSITY (0x21), SET_LABEL_TYPE (0x23),
START_PRINT (0x01), START_PAGE_PRINT (0x03), SET_DIMENSION (0x13) with
payload `be16(h) ++ be16(w)`, the `h` IMAGE_ROW (0x85) packets in row
order, END_PAGE_PRINT (0xE3), and END_PRINT (0xF3) repeated until the
first nonzero ack byte. -/
theorem printImage_packet_sequence (data : List Nat) (w h density : Nat)
    (zeros rest : List Nat) (a : Nat)
    (hd : density < 256) (hh : h < 65536) (hw : w < 65536)
    (hz : ∀ z ∈ zeros, z = 0) (ha : a ≠ 0) :
    printImageRequests data w h density (zeros ++ a :: rest) =
      [⟨33, [density]⟩, ⟨35, [1]⟩, ⟨1, [1]⟩, ⟨3, [1]⟩,
       ⟨19, [h / 256, h % 256, w / 256, w % 256]⟩]
      ++ (List.range h).map (fun y =>
           ⟨0x85, [y / 256, y % 256, 0, 0, 0, 1] ++ packRow (lineDataRow data w y)⟩)
      ++ [⟨227, [1]⟩]
      ++ List.replicate (zeros.length + 1) ⟨243, [1]⟩ := by
  unfold printImageRequests
  rw [endPrintRequests_eq zeros a rest hz ha]
  have hdim : NiimbotPacket.make 19 (be16 h ++ be16 w) =
      ⟨19, [h / 256, h % 256, w / 256, w % 256]⟩ := by
    have hbytes : ∀ b ∈ be16 h ++ be16 w, b < 256 := by
      intro b hb
      rcases List.mem_append.mp hb with hb | hb <;>
        · simp only [be16, List.mem_cons] at hb
          rcases hb with rfl | rfl | h
          · omega
          · omega
          · simp at h
    rw [NiimbotPacket.make, map_u8_eq_self hbytes, be16, be16,
      Nat.mod_eq_of_lt hh, Nat.mod_eq_of_lt hw]
    rfl
  have hdens : NiimbotPacket.make 33 [density] = ⟨33, [density]⟩ := by
    rw [NiimbotPacket.make, List.map_cons, List.map_nil, u8_eq_self hd]
  have himg : encodeImage data w h =
      (List.range h).map (fun y =>
        ⟨0x85, [y / 256, y % 256, 0, 0, 0, 1] ++ packRow (lineDataRow data w y)⟩) := by
    rw [encodeImage]
    exact List.map_congr_left fun y hy =>
      encodeImage_packet (lt_trans (List.mem_range.mp hy) hh)
  rw [hdim, hdens, himg]
  rfl

/-- Claim C5 witness: a 16×2 raster at density 3, with the printer
acking END_PRINT on the second attempt. -/
theorem printImage_packet_sequence_witness :
    printImageRequests (List.replicate 128 0) 16 2 3 ([0] ++ 1 :: []) =
      [⟨33, [3]⟩, ⟨35, [1]⟩, ⟨1, [1]⟩, ⟨3, [1]⟩,
       ⟨19, [2 / 256, 2 % 256, 16 / 256, 16 % 256]⟩]
      ++ (List.range 2).map (fun y =>
           ⟨0x85, [y / 256, y % 256, 0, 0, 0, 1] ++
             packRow (lineDataRow (List.replicate 128 0) 16 y)⟩)
      ++ [⟨227, [1]⟩]
      ++ List.replicate ([0].length + 1) ⟨243, [1]⟩ :=
  printImage_packet_sequence (List.replicate 128 0) 16 2 3 [0] [] 1
    (by decide) (by decide) (by decide) (by decide) (by decide)

end Niimbot

namespace Niimbot

/-! ## Model catalog and the label-type / density range checks -/

/-- One entry of the `PRINTER_CONFIGS` catalog. -/
structure ModelSpec where
  name : String
  maxWidth : Nat
  maxDensity : Nat
  supportedWidths : List Nat
deriving Repr, DecidableEq

/-- The per-model catalog from the repository (keys and the fields used
here). -/
def PRINTER_CONFIGS : List (String × ModelSpec) :=
  [("b1", ⟨"B1", 384, 5, [384]⟩),
   ("b18", ⟨"B18", 384, 3, [384]⟩),
   ("b21", ⟨"B21", 384, 5, [384]⟩),
   ("d11", ⟨"D11", 96, 3, [96]⟩),
   ("d110", ⟨"D110", 96, 3, [96]⟩),
   ("b203", ⟨"B203", 576, 5, [576, 384, 288]⟩)]

/-- `PrinterClientWeb.setLabelType`: the guard `n < 1 || n > 3` throws a
`RangeError` (modelled as `Except.error`) before `transceive` runs, so on
the error path no packet reaches the transport; otherwise the single
request packet `(type 35, payload [n])` is sent.  The printer model is not
consulted. -/
def setLabelTypeRun (n : Int) : Except String (List NiimbotPacket) :=
  if n < 1 ∨ n > 3 then .error "n must be 1-3"
  else .ok [NiimbotPacket.make 35 [n.toNat]]

/-- `PrinterClientWeb.setLabelDensity`: same guard as `setLabelType`, then
the request packet `(type 33, payload [n])`. -/
def setLabelDensityRun (n : Int) : Except String (List NiimbotPacket) :=
  if n < 1 ∨ n > 3 then .error "n must be 1-3"
  else .ok [NiimbotPacket.make 33 [n.toNat]]

/-- Claim C10: for every integer `n` outside 1..3, `setLabelType` and
`setLabelDensity` throw a `RangeError` before any packet is sent, for every
printer model — the guard never consults the catalog, although the catalog
does contain models (e.g. `b1`) whose `maxDensity` is 5. -/
theorem setLabel_range_check (n : Int) (h : n < 1 ∨ 3 < n) :
    setLabelTypeRun n = .error "n must be 1-3" ∧
    setLabelDensityRun n = .error "n must be 1-3" ∧
    ∃ m ∈ PRINTER_CONFIGS, m.2.maxDensity = 5 := by
  refine ⟨?_, ?_, ⟨("b1", ⟨"B1", 384, 5, [384]⟩), by simp [PRINTER_CONFIGS], rfl⟩⟩ <;>
    · have h' : n < 1 ∨ n > 3 := h
      simp [setLabelTypeRun, setLabelDensityRun, if_pos h']

/-- Claim C10 witness: density 5 is rejected even though model `b1` allows
densities up to 5. -/
theorem setLabel_range_check_witness :
    setLabelTypeRun 5 = .error "n must be 1-3" ∧
    setLabelDensityRun 5 = .error "n must be 1-3" ∧
    ∃ m ∈ PRINTER_CONFIGS, m.2.maxDensity = 5 :=
  setLabel_range_check 5 (by decide)

end Niimbot
